import Mathlib

/-!
Shallow embedding of the `amark` streaming tokenizer (crate `amarkl`).

Source files embedded: `src/lib.rs` (tokenizer engine, context stack, token
and error model) and `src/buf.rs` (line cursor buffer).  Bytes are modelled
as `Nat` (the code only ever compares bytes against ASCII constants, no
arithmetic overflows occur), byte slices as `List Nat`, and the underlying
`BufRead` source as the list of bytes still to be delivered.  I/O never
fails in the model, so the `IoError` variant is present but never built.
The engine loop of `parse_next_inner` and the refilling search of
`Buf::search_forward` are given an explicit fuel parameter; `none` means
the fuel ran out, `some` is the faithful result of the Rust code.
-/

deriving instance DecidableEq for Except

namespace Amark

/-- `u8::is_ascii_whitespace` from the Rust standard library:
`\t`, `\n`, `\x0C`, `\r`, space. -/
def is_ascii_whitespace (b : Nat) : Bool :=
  b == 9 || b == 10 || b == 12 || b == 13 || b == 32

/-- `is_ascii_context_char` (src/lib.rs): one of `{ } ( ) [ ]`. -/
def is_ascii_context_char (b : Nat) : Bool :=
  b == 123 || b == 125 || b == 40 || b == 41 || b == 91 || b == 93

/-- `is_ascii_ident_char` (src/lib.rs): not ASCII whitespace, not a context
character and not `;` (59). -/
def is_ascii_ident_char (b : Nat) : Bool :=
  !is_ascii_whitespace b && !is_ascii_context_char b && !(b == 59)

/-- Byte string of a Lean string literal, used for the `expected` /`got`
diagnostic byte slices of the Rust code. -/
def strBytes (s : String) : List Nat :=
  s.data.map fun c => c.toNat

/-- `Context` (src/lib.rs): the context the parser is currently in. -/
inductive Context where
  | Block
  | Params
  | Container
  | TopLevel
  | ItemName
  | EscapeSequence
deriving DecidableEq, Repr

/-- `Context::expected` (src/lib.rs): description of the token expected to
end the given context, used for unexpected-EOF error reporting. -/
def Context.expected : Context → List Nat
  | Context.Block => strBytes "End of Block: \x7d"
  | Context.Params => strBytes "End of Parameter List: )"
  | Context.Container => strBytes "End of Container: ]"
  | Context.TopLevel => strBytes "Any valid Token"
  | Context.ItemName => strBytes "An element start indicator: (, [ or \x7b"
  | Context.EscapeSequence => strBytes "Escape Sequence after \x60\\\x60"

/-- `AmarkToken` (src/lib.rs). `ItemName` and `Text` carry the byte slice
they alias in the buffer. -/
inductive AmarkToken where
  | BlockStart
  | ParamsStart
  | ContainerStart
  | BlockEnd
  | ParamsEnd
  | ContainerEnd
  | ItemEnd
  | EmptyLine
  | End
  | ItemName (name : List Nat)
  | Text (text : List Nat)
  | EscapeSequence (b : Nat)
deriving DecidableEq, Repr

/-- `AmarkToken::is_context_end` (src/lib.rs). -/
def AmarkToken.is_context_end : AmarkToken → Bool
  | AmarkToken.ParamsEnd | AmarkToken.BlockEnd | AmarkToken.ContainerEnd => true
  | _ => false

/-- `AmarkError` (src/error.rs).  `IoError` carries no payload here because
the modelled source never fails. -/
inductive AmarkError where
  | IoError
  | UnexpectedInput (expected got : List Nat)
  | UnexpectedEol (expected : List Nat)
  | UnexpectedEof (expected : List Nat)
deriving DecidableEq, Repr

/-- `Buf` (src/buf.rs): byte storage of the current line plus the count of
already processed bytes. -/
structure Buf where
  storage : List Nat
  processed : Nat
deriving DecidableEq, Repr

/-- `Buf::with_storage` (src/buf.rs). -/
def Buf.with_storage (storage : List Nat) : Buf :=
  { storage := storage, processed := 0 }

/-- `BufRead::read_until(b'\n')`: split the source into the first line
(terminating newline retained, if any) and the rest. -/
def read_until_newline : List Nat → List Nat × List Nat
  | [] => ([], [])
  | b :: rest =>
    if b == 10 then ([10], rest)
    else
      let (line, rest') := read_until_newline rest
      (b :: line, rest')

/-- `Buf::fill_with_line` (src/buf.rs): clear storage and the processed
cursor, bump the line counter, pull the next line from the source.
Returns the new buffer, the new line counter and the remaining source. -/
def Buf.fill_with_line (_buf : Buf) (cur_line : Nat) (src : List Nat) :
    Buf × Nat × List Nat :=
  let (line, rest) := read_until_newline src
  ({ storage := line, processed := 0 }, cur_line + 1, rest)

/-- `Buf::next_byte` (src/buf.rs): byte at the cursor (advancing it), or
`none` at end of storage (buffer unchanged). -/
def Buf.next_byte (buf : Buf) : Option Nat × Buf :=
  match buf.storage.get? buf.processed with
  | some b => (some b, { buf with processed := buf.processed + 1 })
  | none => (none, buf)

/-- `Buf::rewind` (src/buf.rs): move the cursor back by `n`, saturating
at 0. -/
def Buf.rewind (buf : Buf) (n : Nat) : Buf :=
  { buf with processed := buf.processed - n }

/-- `Buf::storage_empty` (src/buf.rs). -/
def Buf.storage_empty (buf : Buf) : Bool :=
  buf.storage.isEmpty

/-- `Buf::take_until_inner` (src/buf.rs).  `buf.get(processed..)` fails when
`processed > len` (first branch).  On a searcher hit at `pos` the cursor
advances by `pos + 1` before the subslice lookups are checked; on a miss the
cursor is set to the length of the *remaining* subslice (the Rust code reads
`buf.len()` from the shadowed subslice binding).  Returns the optional
(slice, byte) pair and the new cursor. -/
def take_until_inner (storage : List Nat) (processed : Nat)
    (searcher : List Nat → Option Nat) : Option (List Nat × Nat) × Nat :=
  if processed ≤ storage.length then
    let sub := storage.drop processed
    match searcher sub with
    | some pos =>
      match sub.get? pos with
      | some byte => (some (sub.take pos, byte), processed + (pos + 1))
      | none => (none, processed + (pos + 1))
    | none => (none, sub.length)
  else (none, processed)

/-- `Buf::take_until_rewind` (src/buf.rs): run `take_until_inner`, then give
back `rewind byte` bytes on a hit. -/
def Buf.take_until_rewind (buf : Buf) (searcher : List Nat → Option Nat)
    (rewind : Nat → Nat) : Option (List Nat × Nat) × Buf :=
  match take_until_inner buf.storage buf.processed searcher with
  | (some (s, byte), p) =>
    (some (s, byte), { buf with processed := p - rewind byte })
  | (none, p) => (none, { buf with processed := p })

/-- `Buf::search_forward` (src/buf.rs): consume bytes until one satisfies
the pattern (cursor just past it, result `true`), refilling from the source
on buffer exhaustion; `false` once the storage ends up empty.  Fueled: one
unit per loop iteration, `none` when fuel runs out. -/
def Buf.search_forward :
    Nat → Buf → Nat → List Nat → (Nat → Bool) →
      Option (Bool × Buf × Nat × List Nat)
  | 0, _, _, _, _ => none
  | fuel + 1, buf, cur_line, src, pattern =>
    if buf.storage_empty then some (false, buf, cur_line, src)
    else
      match buf.next_byte with
      | (some b, buf') =>
        if pattern b then some (true, buf', cur_line, src)
        else Buf.search_forward fuel buf' cur_line src pattern
      | (none, _) =>
        let (buf', cur_line', src') := buf.fill_with_line cur_line src
        Buf.search_forward fuel buf' cur_line' src' pattern

/-- `ContextStack` (src/lib.rs) is modelled as a list with its head as the
top of the stack. -/
def ContextStack.push (stack : List Context) (ctx : Context) : List Context :=
  ctx :: stack

/-- `ContextStack::pop` (src/lib.rs); the engine always discards the popped
value, so only the shrunken stack is returned (empty stays empty). -/
def ContextStack.pop (stack : List Context) : List Context :=
  stack.tail

/-- `ContextStack::last` (src/lib.rs): top of the stack, `TopLevel` when
empty. -/
def ContextStack.last (stack : List Context) : Context :=
  stack.head?.getD Context.TopLevel

/-- `memchr::memchr3`: index of the first occurrence of any of the three
bytes in the haystack. -/
def memchr3 (a b c : Nat) (haystack : List Nat) : Option Nat :=
  haystack.findIdx? fun x => x == a || x == b || x == c

/-- Number of bytes consumed by the whitespace-skipping loops of the `;`
and `)` handlers in `parse_next_inner` (src/lib.rs lines 131-137, 236-242):
`while let Some(b) = next_byte { if !b.is_ascii_whitespace() { rewind(1);
break } }` consumes exactly the leading whitespace run of the remaining
bytes (each non-whitespace terminator is given back via `rewind(1)`). -/
def skip_ws_run : List Nat → Nat
  | [] => 0
  | b :: rest => if is_ascii_whitespace b then 1 + skip_ws_run rest else 0

/-- Number of bytes consumed by the loop of the `}` handler in
`parse_next_inner` (src/lib.rs lines 192-201):
`loop { if next_byte().map_or(true, |b| b.is_ascii_whitespace()) { break } }`
consumes the leading run of NON-whitespace bytes and, when present, also the
first whitespace byte after it (nothing is rewound). -/
def block_end_skip_run : List Nat → Nat
  | [] => 0
  | b :: rest => if is_ascii_whitespace b then 1 else 1 + block_end_skip_run rest

/-- The searcher closure of `read_item_name` (src/lib.rs): position of the
first byte that is not a valid identifier character. -/
def item_name_searcher (haystack : List Nat) : Option Nat :=
  haystack.findIdx? fun b => !is_ascii_ident_char b

/-- The rewind closure of `read_item_name` (src/lib.rs): give a context
character or `;` back so it is reprocessed, consume anything else. -/
def item_name_rewind (b : Nat) : Nat :=
  if is_ascii_context_char b || b == 59 then 1 else 0

/-- `AmarkReaderInner::read_item_name` (src/lib.rs): read until the next
character that is not valid for item names; `UnexpectedEof` when no such
terminator is present in the buffer. -/
def read_item_name (buf : Buf) : Except AmarkError (List Nat) × Buf :=
  match buf.take_until_rewind item_name_searcher item_name_rewind with
  | (some (name, _), buf') => (Except.ok name, buf')
  | (none, buf') =>
    (Except.error (AmarkError.UnexpectedEof
      (strBytes "Any other symbol after item name")), buf')

/-- `AmarkReaderInner::try_read_text` (src/lib.rs): take bytes up to the
first of `\n`, `end_char`, `\`; `end_char` and `\` are rewound so the
dispatch loop reprocesses them. -/
def try_read_text (buf : Buf) (end_char : Nat) : Option (List Nat × Nat) × Buf :=
  buf.take_until_rewind (memchr3 10 end_char 92)
    (fun b => if b == end_char || b == 92 then 1 else 0)

/-- State of `AmarkReader` (src/lib.rs): buffer, context stack and the
current line counter. -/
structure ReaderState where
  buf : Buf
  context_stack : List Context
  cur_line : Nat
deriving DecidableEq, Repr

/-- `AmarkReader::new` / `AmarkReader::default` (src/lib.rs): empty buffer,
empty context stack, line counter 0. -/
def ReaderState.new : ReaderState :=
  { buf := Buf.with_storage [], context_stack := [], cur_line := 0 }

/-- `AmarkReaderInner::parse_escape_sequence` (src/lib.rs): push the
`EscapeSequence` context, then return the next byte verbatim, or
`UnexpectedEof` when the buffer holds no further byte. -/
def parse_escape_sequence (buf : Buf) (stack : List Context) :
    Except AmarkError AmarkToken × Buf × List Context :=
  let stack' := ContextStack.push stack Context.EscapeSequence
  match buf.next_byte with
  | (some b, buf') => (Except.ok (AmarkToken.EscapeSequence b), buf', stack')
  | (none, buf') =>
    (Except.error (AmarkError.UnexpectedEof
      (Context.expected Context.EscapeSequence)), buf', stack')

/-- `parse_ascii_context_char` (src/lib.rs): token and context for an item
context character.  The Rust function is only ever reached with one of
`[`, `{`, `(` (anything else is `unreachable!`); the final arm here is the
`(` case. -/
def parse_ascii_context_char (b : Nat) : AmarkToken × Context :=
  if b == 91 then (AmarkToken.ContainerStart, Context.Container)
  else if b == 123 then (AmarkToken.BlockStart, Context.Block)
  else (AmarkToken.ParamsStart, Context.Params)

/-- `AmarkReaderInner::parse_next_inner` (src/lib.rs): the pushdown
automaton.  One unit of fuel is spent per iteration of the outer
`loop`/inner `while` body; `none` means the fuel ran out, otherwise the
result is the token or error together with the successor state and the
remaining source bytes. -/
def parse_next_inner :
    Nat → ReaderState → List Nat →
      Option (Except AmarkError AmarkToken × ReaderState × List Nat)
  | 0, _, _ => none
  | fuel + 1, st, src =>
    match st.buf.next_byte with
    | (some b, buf1) =>
      match ContextStack.last st.context_stack with
      | Context.ItemName =>
        if b == 91 || b == 40 || b == 123 then
          let stack1 :=
            if b != 40 then ContextStack.pop st.context_stack
            else st.context_stack
          let (tok, ctx) := parse_ascii_context_char b
          let stack2 := ContextStack.push stack1 ctx
          match Buf.search_forward fuel buf1 st.cur_line src
              (fun x => !is_ascii_whitespace x) with
          | none => none
          | some (_, buf2, line2, src2) =>
            some (Except.ok tok, ⟨buf2.rewind 1, stack2, line2⟩, src2)
        else if b == 59 then
          let stack1 := ContextStack.pop st.context_stack
          let buf2 : Buf :=
            { buf1 with
              processed :=
                buf1.processed + skip_ws_run (buf1.storage.drop buf1.processed) }
          some (Except.ok AmarkToken.ItemEnd, ⟨buf2, stack1, st.cur_line⟩, src)
        else if is_ascii_whitespace b then
          parse_next_inner fuel ⟨buf1, st.context_stack, st.cur_line⟩ src
        else
          some (Except.error (AmarkError.UnexpectedInput
              (strBytes "Start or End of item token \x7b, (, [ or ;") [b]),
            ⟨buf1, st.context_stack, st.cur_line⟩, src)
      | Context.Container =>
        if b == 93 then
          some (Except.ok AmarkToken.ContainerEnd,
            ⟨buf1, ContextStack.pop st.context_stack, st.cur_line⟩, src)
        else if b == 125 then
          some (Except.error (AmarkError.UnexpectedInput
              (Context.expected Context.Container)
              (Context.expected Context.Block)),
            ⟨buf1, st.context_stack, st.cur_line⟩, src)
        else if is_ascii_ident_char b then
          match read_item_name (buf1.rewind 1) with
          | (Except.ok name, buf2) =>
            some (Except.ok (AmarkToken.ItemName name),
              ⟨buf2, ContextStack.push st.context_stack Context.ItemName,
                st.cur_line⟩, src)
          | (Except.error e, buf2) =>
            some (Except.error e, ⟨buf2, st.context_stack, st.cur_line⟩, src)
        else
          parse_next_inner fuel ⟨buf1, st.context_stack, st.cur_line⟩ src
      | Context.TopLevel =>
        if b == 93 then
          some (Except.error (AmarkError.UnexpectedInput
              (strBytes "Item or EOF") (strBytes "]")),
            ⟨buf1, st.context_stack, st.cur_line⟩, src)
        else if b == 125 then
          some (Except.error (AmarkError.UnexpectedInput
              (Context.expected Context.Container)
              (Context.expected Context.Block)),
            ⟨buf1, st.context_stack, st.cur_line⟩, src)
        else if is_ascii_ident_char b then
          match read_item_name (buf1.rewind 1) with
          | (Except.ok name, buf2) =>
            some (Except.ok (AmarkToken.ItemName name),
              ⟨buf2, ContextStack.push st.context_stack Context.ItemName,
                st.cur_line⟩, src)
          | (Except.error e, buf2) =>
            some (Except.error e, ⟨buf2, st.context_stack, st.cur_line⟩, src)
        else
          parse_next_inner fuel ⟨buf1, st.context_stack, st.cur_line⟩ src
      | Context.Block =>
        if b == 10 then
          some (Except.ok AmarkToken.EmptyLine,
            ⟨buf1, st.context_stack, st.cur_line⟩, src)
        else if b == 92 then
          match parse_escape_sequence buf1 st.context_stack with
          | (res, buf2, stack2) => some (res, ⟨buf2, stack2, st.cur_line⟩, src)
        else if b == 64 then
          match read_item_name buf1 with
          | (Except.ok name, buf2) =>
            some (Except.ok (AmarkToken.ItemName name),
              ⟨buf2, ContextStack.push st.context_stack Context.ItemName,
                st.cur_line⟩, src)
          | (Except.error e, buf2) =>
            some (Except.error e, ⟨buf2, st.context_stack, st.cur_line⟩, src)
        else if b == 125 then
          let stack1 := ContextStack.pop st.context_stack
          let buf2 : Buf :=
            { buf1 with
              processed :=
                buf1.processed +
                  block_end_skip_run (buf1.storage.drop buf1.processed) }
          some (Except.ok AmarkToken.BlockEnd, ⟨buf2, stack1, st.cur_line⟩, src)
        else if is_ascii_whitespace b then
          parse_next_inner fuel ⟨buf1, st.context_stack, st.cur_line⟩ src
        else
          match try_read_text (buf1.rewind 1) 125 with
          | (some (line, _), buf2) =>
            some (Except.ok (AmarkToken.Text line),
              ⟨buf2, st.context_stack, st.cur_line⟩, src)
          | (none, buf2) =>
            some (Except.error (AmarkError.UnexpectedEof (strBytes
                "End of line indicator for text line or end of item indicator \x7d")),
              ⟨buf2, st.context_stack, st.cur_line⟩, src)
      | Context.EscapeSequence =>
        if b == 40 then
          let stack2 := ContextStack.push st.context_stack Context.Params
          match Buf.search_forward fuel buf1 st.cur_line src
              (fun x => !is_ascii_whitespace x) with
          | none => none
          | some (_, buf2, line2, src2) =>
            some (Except.ok AmarkToken.ParamsStart,
              ⟨buf2.rewind 1, stack2, line2⟩, src2)
        else
          parse_next_inner fuel
            ⟨buf1.rewind 1, ContextStack.pop st.context_stack, st.cur_line⟩ src
      | Context.Params =>
        if b == 92 then
          match parse_escape_sequence buf1 st.context_stack with
          | (res, buf2, stack2) => some (res, ⟨buf2, stack2, st.cur_line⟩, src)
        else if b == 41 then
          let buf2 : Buf :=
            { buf1 with
              processed :=
                buf1.processed + skip_ws_run (buf1.storage.drop buf1.processed) }
          let stack1 := ContextStack.pop st.context_stack
          let stack2 :=
            if ContextStack.last stack1 ≠ Context.ItemName then
              ContextStack.pop stack1
            else stack1
          some (Except.ok AmarkToken.ParamsEnd, ⟨buf2, stack2, st.cur_line⟩, src)
        else
          match try_read_text (buf1.rewind 1) 41 with
          | (some (line, _), buf2) =>
            some (Except.ok (AmarkToken.Text line),
              ⟨buf2, st.context_stack, st.cur_line⟩, src)
          | (none, buf2) =>
            some (Except.error (AmarkError.UnexpectedEof (strBytes
                "End of line indicator for text line or end of params indicator )")),
              ⟨buf2, st.context_stack, st.cur_line⟩, src)
    | (none, _) =>
      let (buf1, line1, src1) := st.buf.fill_with_line st.cur_line src
      if buf1.storage_empty then
        if ContextStack.last st.context_stack = Context.TopLevel then
          some (Except.ok AmarkToken.End, ⟨buf1, st.context_stack, line1⟩, src1)
        else
          some (Except.error (AmarkError.UnexpectedEof
              (Context.expected (ContextStack.last st.context_stack))),
            ⟨buf1, st.context_stack, line1⟩, src1)
      else
        parse_next_inner fuel ⟨buf1, st.context_stack, line1⟩ src1

/-- Repeated `parse_next` calls, as the dump CLI performs them: collect the
emitted tokens, stopping at `End` (included) or at the first error (kept in
the second component); `none` when the fuel runs out first. -/
def run_stream :
    Nat → ReaderState → List Nat →
      Option (List AmarkToken × Option AmarkError)
  | 0, _, _ => none
  | fuel + 1, st, src =>
    match parse_next_inner (fuel + 1) st src with
    | none => none
    | some (Except.error e, _, _) => some ([], some e)
    | some (Except.ok tok, st', src') =>
      if tok = AmarkToken.End then some ([AmarkToken.End], none)
      else
        match run_stream fuel st' src' with
        | none => none
        | some (toks, res) => some (tok :: toks, res)

/-- Number of occurrences of a token in an emitted token list. -/
def tok_count (t : AmarkToken) : List AmarkToken → Nat
  | [] => 0
  | x :: rest => (if x = t then 1 else 0) + tok_count t rest

/-- Number of occurrences of a context in a context stack. -/
def ctx_count (c : Context) : List Context → Nat
  | [] => 0
  | x :: rest => (if x = c then 1 else 0) + ctx_count c rest

/-- Well-formed context stacks, as the engine produces them: `TopLevel` is
never pushed, and every `Params` entry sits directly above an `ItemName` or
an `EscapeSequence` entry (the two call shapes of a parameter list). -/
def wf_stack : List Context → Bool
  | [] => true
  | Context.TopLevel :: _ => false
  | Context.Params :: rest =>
    (match rest.head? with
     | some Context.ItemName => true
     | some Context.EscapeSequence => true
     | _ => false) && wf_stack rest
  | _ :: rest => wf_stack rest

/-! ## Helper lemmas -/

/-- When the buffer is exhausted at call entry and the source is empty, the
main-loop refill of `parse_next_inner` pulls no bytes and the context check
decides the call: `End` at `TopLevel`, `UnexpectedEof` with the context's
expected-terminator description otherwise. -/
theorem parse_next_refill_empty (fuel : Nat) (st : ReaderState)
    (h : st.buf.storage.get? st.buf.processed = none) :
    parse_next_inner (fuel + 1) st [] =
      some ((if ContextStack.last st.context_stack = Context.TopLevel then
          Except.ok AmarkToken.End
        else
          Except.error (AmarkError.UnexpectedEof
            (Context.expected (ContextStack.last st.context_stack)))),
        ⟨⟨[], 0⟩, st.context_stack, st.cur_line + 1⟩, []) := by
  simp only [parse_next_inner, Buf.next_byte, h]
  by_cases hc : ContextStack.last st.context_stack = Context.TopLevel <;>
    simp [Buf.fill_with_line, read_until_newline, Buf.storage_empty, hc]

/-- `findIdx?` for the negation of a predicate finds exactly the length of
the `takeWhile` run, when a failing element exists. -/
theorem findIdx?_not_takeWhile (p : Nat → Bool) :
    ∀ (l : List Nat) (i : Nat),
      l.findIdx? (fun x => !p x) i =
        if (l.takeWhile p).length < l.length then
          some (i + (l.takeWhile p).length)
        else none := by
  intro l
  induction l with
  | nil => intro i; simp [List.findIdx?_nil]
  | cons b rest ih =>
    intro i
    by_cases hp : p b
    · have hr := ih (i + 1)
      simp only [List.findIdx?_cons, List.takeWhile_cons, hp]
      simp only [Bool.not_true, if_false, hr]
      by_cases hlt : (rest.takeWhile p).length < rest.length
      · simp [hlt, Nat.add_comm, Nat.add_assoc, Nat.add_left_comm]
      · simp [hlt]
    · simp [List.findIdx?_cons, List.takeWhile_cons, hp,
        Bool.not_eq_true', Nat.lt_of_lt_of_le]

/-- Taking `takeWhile`-many elements is the `takeWhile` run itself. -/
theorem take_length_takeWhile (p : Nat → Bool) :
    ∀ l : List Nat, l.take (l.takeWhile p).length = l.takeWhile p := by
  intro l
  induction l with
  | nil => simp
  | cons b rest ih =>
    by_cases hp : p b <;> simp [List.takeWhile_cons, hp, ih]

/-- The `takeWhile` run is never longer than the list. -/
theorem takeWhile_length_le (p : Nat → Bool) :
    ∀ l : List Nat, (l.takeWhile p).length ≤ l.length := by
  intro l
  induction l with
  | nil => simp
  | cons b rest ih =>
    by_cases hp : p b <;> simp [List.takeWhile_cons, hp] <;> omega

/-! ## Claim theorems -/

/-- C3 (code_bug evidence): in `Block` context on `}` (input bytes
`"}ab c"`), the engine pops the context and returns `BlockEnd`, but the skip
loop after the `}` consumes the NON-whitespace bytes `a`, `b` and the first
whitespace byte (cursor 4), instead of skipping whitespace only and leaving
the first non-whitespace byte at cursor 1 as the claim states; the consumed
byte 97 (`a`) is not whitespace. -/
theorem c3_block_end_swallows_nonwhitespace :
    parse_next_inner 5 ⟨⟨[125, 97, 98, 32, 99], 0⟩, [Context.Block], 0⟩ [] =
      some (Except.ok AmarkToken.BlockEnd,
        ⟨⟨[125, 97, 98, 32, 99], 4⟩, [], 0⟩, []) ∧
      is_ascii_whitespace 97 = false := by
  decide

/-- C4 (code_bug evidence): `take_until_rewind` on storage `"abc"` with
cursor 1 and a searcher that never matches leaves the cursor at 2 (the
length of the remaining subslice, because the no-match arm of
`take_until_inner` reads the length of the shadowed subslice binding), not
at the storage length 3 as the claim states. -/
theorem c4_take_until_no_match_cursor :
    Buf.take_until_rewind ⟨[97, 98, 99], 1⟩ (fun _ => none) (fun _ => 0) =
      (none, ⟨[97, 98, 99], 2⟩) ∧
      (Buf.mk [97, 98, 99] 2).processed ≠ (Buf.mk [97, 98, 99] 2).storage.length := by
  decide

/-- C7: on input `br(4);` the successive `parse_next` calls from a fresh
reader yield `ItemName "br"`, `ParamsStart`, `Text "4"`, `ParamsEnd`,
`ItemEnd` (then `End`); after the `)` call the context stack is exactly
`[ItemName]` (the `Params` context was popped and no second pop occurred),
and the following `;` call pops it and returns `ItemEnd`. -/
theorem c7_br_params_scenario :
    run_stream 50 ReaderState.new [98, 114, 40, 52, 41, 59] =
      some ([AmarkToken.ItemName [98, 114], AmarkToken.ParamsStart,
        AmarkToken.Text [52], AmarkToken.ParamsEnd, AmarkToken.ItemEnd,
        AmarkToken.End], none) ∧
    parse_next_inner 50 ⟨⟨[98, 114, 40, 52, 41, 59], 4⟩,
        [Context.Params, Context.ItemName], 1⟩ [] =
      some (Except.ok AmarkToken.ParamsEnd,
        ⟨⟨[98, 114, 40, 52, 41, 59], 5⟩, [Context.ItemName], 1⟩, []) ∧
    parse_next_inner 50 ⟨⟨[98, 114, 40, 52, 41, 59], 5⟩,
        [Context.ItemName], 1⟩ [] =
      some (Except.ok AmarkToken.ItemEnd,
        ⟨⟨[98, 114, 40, 52, 41, 59], 6⟩, [], 1⟩, []) := by
  decide

/-- C1 (counterexample): from the engine state reached after reading the
item name of the truncated source `a{` (buffer `"a{"`, cursor 1, context
stack `[ItemName]`) with the source exhausted, `parse_next` returns the
success token `BlockStart` — not `End` and not `UnexpectedEof` — although
during this very call the refill inside the whitespace search yields no new
bytes (the resulting storage is empty) and the resulting context is
`Block`, not `TopLevel`. -/
theorem c1_counterexample_search_refill :
    parse_next_inner 50 ⟨⟨[97, 123], 1⟩, [Context.ItemName], 1⟩ [] =
      some (Except.ok AmarkToken.BlockStart,
        ⟨⟨[], 0⟩, [Context.Block], 2⟩, []) ∧
    parse_next_inner 50 ReaderState.new [97, 123] =
      some (Except.ok (AmarkToken.ItemName [97]),
        ⟨⟨[97, 123], 1⟩, [Context.ItemName], 1⟩, []) := by
  decide

/-- C1 (amended): for every engine state whose buffer is exhausted at call
entry and whose source is exhausted, the main dispatch loop's refill yields
no new bytes and the call returns `End` when the current context is
`TopLevel`, and the error `UnexpectedEof` carrying the current context's
expected-terminator description otherwise.  (The claim as stated, covering
every refill during `parse_next`, fails for the refill performed inside the
whitespace search after an opening bracket; see the counterexample.) -/
theorem c1_refill_empty_end_or_eof (fuel : Nat) (st : ReaderState)
    (h : st.buf.storage.get? st.buf.processed = none) :
    parse_next_inner (fuel + 1) st [] =
      some ((if ContextStack.last st.context_stack = Context.TopLevel then
          Except.ok AmarkToken.End
        else
          Except.error (AmarkError.UnexpectedEof
            (Context.expected (ContextStack.last st.context_stack)))),
        ⟨⟨[], 0⟩, st.context_stack, st.cur_line + 1⟩, []) :=
  parse_next_refill_empty fuel st h

/-- Witness for C1: concrete empty-refill calls, once at `TopLevel`
(yielding `End`) and once inside a `Block` (yielding `UnexpectedEof` with
the block's expected terminator). -/
theorem c1_refill_empty_end_or_eof_witness :
    parse_next_inner 3 ⟨⟨[], 0⟩, [], 7⟩ [] =
      some (Except.ok AmarkToken.End, ⟨⟨[], 0⟩, [], 8⟩, []) ∧
    parse_next_inner 3 ⟨⟨[97], 1⟩, [Context.Block], 7⟩ [] =
      some (Except.error (AmarkError.UnexpectedEof
          (Context.expected Context.Block)),
        ⟨⟨[], 0⟩, [Context.Block], 8⟩, []) := by
  constructor
  · have h := c1_refill_empty_end_or_eof 2 ⟨⟨[], 0⟩, [], 7⟩ (by decide)
    simpa using h
  · have h := c1_refill_empty_end_or_eof 2 ⟨⟨[97], 1⟩, [Context.Block], 7⟩
      (by decide)
    simpa using h

/-- C2 (counterexample): on the truncated input `a{` the emitted token
stream is `ItemName "a", BlockStart` followed by an `UnexpectedEof` error,
so it contains one `BlockStart` but no `BlockEnd`. -/
theorem c2_counterexample_unbalanced :
    run_stream 50 ReaderState.new [97, 123] =
      some ([AmarkToken.ItemName [97], AmarkToken.BlockStart],
        some (AmarkError.UnexpectedEof (Context.expected Context.Block))) ∧
    tok_count AmarkToken.BlockStart
        [AmarkToken.ItemName [97], AmarkToken.BlockStart] ≠
      tok_count AmarkToken.BlockEnd
        [AmarkToken.ItemName [97], AmarkToken.BlockStart] := by
  decide

/-- C6: in a `Block` or `Params` context with `\` (92) at the cursor, the
engine pushes `EscapeSequence` and emits `EscapeSequence X` for the byte `X`
following the `\` in the buffer, verbatim; when no byte follows in the
buffer it fails with `UnexpectedEof` (expected description of the
`EscapeSequence` context). -/
theorem c6_escape_verbatim (fuel : Nat) (st : ReaderState) (src : List Nat)
    (hctx : ContextStack.last st.context_stack = Context.Block ∨
      ContextStack.last st.context_stack = Context.Params)
    (hb : st.buf.storage.get? st.buf.processed = some 92) :
    (∀ X, st.buf.storage.get? (st.buf.processed + 1) = some X →
      parse_next_inner (fuel + 1) st src =
        some (Except.ok (AmarkToken.EscapeSequence X),
          ⟨⟨st.buf.storage, st.buf.processed + 1 + 1⟩,
            ContextStack.push st.context_stack Context.EscapeSequence,
            st.cur_line⟩, src)) ∧
    (st.buf.storage.get? (st.buf.processed + 1) = none →
      parse_next_inner (fuel + 1) st src =
        some (Except.error (AmarkError.UnexpectedEof
            (Context.expected Context.EscapeSequence)),
          ⟨⟨st.buf.storage, st.buf.processed + 1⟩,
            ContextStack.push st.context_stack Context.EscapeSequence,
            st.cur_line⟩, src)) := by
  constructor
  · intro X hX
    rcases hctx with hc | hc <;>
      · simp only [parse_next_inner, Buf.next_byte, hb, hc, parse_escape_sequence]
        simp only [List.get?_eq_getElem?] at hX
        simp [hX]
  · intro hX
    rcases hctx with hc | hc <;>
      · simp only [parse_next_inner, Buf.next_byte, hb, hc, parse_escape_sequence]
        simp only [List.get?_eq_getElem?] at hX
        simp [hX]

/-- Witness for C6: in a `Block` on buffer `"\n"` (backslash, letter n) the
escape emits `EscapeSequence 110` verbatim; in a `Params` on buffer `"\"`
with nothing after the backslash it fails with `UnexpectedEof`. -/
theorem c6_escape_verbatim_witness :
    parse_next_inner 9 ⟨⟨[92, 110], 0⟩, [Context.Block], 4⟩ [3] =
      some (Except.ok (AmarkToken.EscapeSequence 110),
        ⟨⟨[92, 110], 2⟩,
          [Context.EscapeSequence, Context.Block], 4⟩, [3]) ∧
    parse_next_inner 9 ⟨⟨[92], 0⟩, [Context.Params, Context.ItemName], 4⟩ [] =
      some (Except.error (AmarkError.UnexpectedEof
          (Context.expected Context.EscapeSequence)),
        ⟨⟨[92], 1⟩,
          [Context.EscapeSequence, Context.Params, Context.ItemName], 4⟩, []) := by
  constructor
  · have h := (c6_escape_verbatim 8 ⟨⟨[92, 110], 0⟩, [Context.Block], 4⟩ [3]
      (Or.inl (by decide)) (by decide)).1 110 (by decide)
    simpa [ContextStack.push] using h
  · have h := (c6_escape_verbatim 8
      ⟨⟨[92], 0⟩, [Context.Params, Context.ItemName], 4⟩ []
      (Or.inr (by decide)) (by decide)).2 (by decide)
    simpa [ContextStack.push] using h

/-- Characterisation of `read_item_name`: it returns the maximal identifier
run from the cursor on; a structural/`;` terminator stays at the cursor, a
whitespace terminator is consumed, and a missing terminator is an
`UnexpectedEof`. -/
theorem read_item_name_spec (b : Buf) (rem run : List Nat)
    (h : b.processed ≤ b.storage.length)
    (hrem : rem = b.storage.drop b.processed)
    (hrun : run = rem.takeWhile is_ascii_ident_char) :
    (∀ t, rem.get? run.length = some t →
      read_item_name b =
        (Except.ok run,
          ⟨b.storage, b.processed + run.length +
            (if is_ascii_context_char t || t == 59 then 0 else 1)⟩)) ∧
    (rem.get? run.length = none →
      read_item_name b =
        (Except.error (AmarkError.UnexpectedEof
          (strBytes "Any other symbol after item name")),
          ⟨b.storage, rem.length⟩)) := by
  subst hrem hrun
  constructor
  · intro t ht
    have hlt : (List.takeWhile is_ascii_ident_char
        (b.storage.drop b.processed)).length <
        (b.storage.drop b.processed).length :=
      (List.get?_eq_some.mp ht).1
    simp only [read_item_name, Buf.take_until_rewind, take_until_inner, h,
      if_pos, item_name_searcher, findIdx?_not_takeWhile, hlt, if_true, ht,
      take_length_takeWhile, Nat.zero_add, item_name_rewind]
    by_cases hcc : is_ascii_context_char t || t == 59
    · simp [hcc, Nat.add_sub_cancel]
    · simp only [hcc, if_false, Nat.sub_zero, if_neg, Bool.false_eq_true]
      simp
      omega
  · intro ht
    have hge : (b.storage.drop b.processed).length ≤
        (List.takeWhile is_ascii_ident_char (b.storage.drop b.processed)).length :=
      List.get?_eq_none.mp ht
    have hle := takeWhile_length_le is_ascii_ident_char (b.storage.drop b.processed)
    have hlen : (List.drop b.processed b.storage).length =
        b.storage.length - b.processed := List.length_drop _ _
    have heq : ¬ (List.takeWhile is_ascii_ident_char
        (b.storage.drop b.processed)).length <
        b.storage.length - b.processed := by omega
    simp [read_item_name, Buf.take_until_rewind, take_until_inner, h,
      item_name_searcher, findIdx?_not_takeWhile, heq]

/-- C5: the item-name scan returns the maximal run of bytes that are valid
identifier characters (not ASCII whitespace, not `{ } ( ) [ ]`, not `;`)
from the cursor on.  When a terminating byte `t` exists, the cursor ends
just past the run when `t` is a structural byte or `;` (so `t` is
reprocessed on the next call) and one further (consuming `t`) otherwise
(whitespace); when the buffer ends mid-run without a terminator the scan
fails with `UnexpectedEof`. -/
theorem c5_read_item_name_scan (b : Buf) (rem run : List Nat)
    (h : b.processed ≤ b.storage.length)
    (hrem : rem = b.storage.drop b.processed)
    (hrun : run = rem.takeWhile is_ascii_ident_char) :
    (∀ t, rem.get? run.length = some t →
      read_item_name b =
        (Except.ok run,
          ⟨b.storage, b.processed + run.length +
            (if is_ascii_context_char t || t == 59 then 0 else 1)⟩)) ∧
    (rem.get? run.length = none →
      read_item_name b =
        (Except.error (AmarkError.UnexpectedEof
          (strBytes "Any other symbol after item name")),
          ⟨b.storage, rem.length⟩)) :=
  read_item_name_spec b rem run h hrem hrun

/-- Witness for C5: on buffer `"br(4);"` at cursor 0 the scan returns
`"br"` with the `(` left at the cursor; on buffer `"a"` (no terminator) it
fails with `UnexpectedEof`. -/
theorem c5_read_item_name_scan_witness :
    read_item_name ⟨[98, 114, 40, 52, 41, 59], 0⟩ =
      (Except.ok [98, 114], ⟨[98, 114, 40, 52, 41, 59], 2⟩) ∧
    read_item_name ⟨[97], 0⟩ =
      (Except.error (AmarkError.UnexpectedEof
        (strBytes "Any other symbol after item name")), ⟨[97], 1⟩) := by
  constructor
  · have h := (c5_read_item_name_scan ⟨[98, 114, 40, 52, 41, 59], 0⟩
      [98, 114, 40, 52, 41, 59] [98, 114] (by decide) (by decide)
      (by decide)).1 40 (by decide)
    simpa using h
  · have h := (c5_read_item_name_scan ⟨[97], 0⟩ [97] [97]
      (by decide) (by decide) (by decide)).2 (by decide)
    simpa using h

/-- When the byte at the cursor is a valid identifier character, a
successful `read_item_name` never returns an empty name. -/
theorem read_item_name_ok_nonempty (buf : Buf) (c : Nat)
    (hg : buf.storage.get? buf.processed = some c)
    (hid : is_ascii_ident_char c = true) :
    ∀ name buf', read_item_name buf = (Except.ok name, buf') → name ≠ [] := by
  intro name buf' heq
  have hlt : buf.processed < buf.storage.length := (List.get?_eq_some.mp hg).1
  have hcons : buf.storage.drop buf.processed =
      c :: buf.storage.drop (buf.processed + 1) := by
    rw [List.drop_eq_get_cons hlt]
    exact congrArg (· :: _) (List.get?_eq_some.mp hg).2
  have hspec := read_item_name_spec buf (buf.storage.drop buf.processed)
    ((buf.storage.drop buf.processed).takeWhile is_ascii_ident_char)
    (Nat.le_of_lt hlt) rfl rfl
  rcases hh : (buf.storage.drop buf.processed).get?
      ((buf.storage.drop buf.processed).takeWhile is_ascii_ident_char).length
    with _ | t
  · have hx := hspec.2 hh
    rw [heq] at hx
    simp at hx
  · have hx := hspec.1 t hh
    rw [heq] at hx
    have hname : name =
        (buf.storage.drop buf.processed).takeWhile is_ascii_ident_char := by
      simp only [Prod.mk.injEq, Except.ok.injEq] at hx
      exact hx.1
    rw [hname, hcons, List.takeWhile_cons, hid]
    simp

/-- In `TopLevel` or `Container` context, every emitted `ItemName` token
carries a nonempty name (the dispatch only enters the scan on an
identifier byte, which becomes the first byte of the name). -/
theorem toplevel_item_name_nonempty (fuel : Nat) :
    ∀ st src name st' src',
      (ContextStack.last st.context_stack = Context.TopLevel ∨
        ContextStack.last st.context_stack = Context.Container) →
      parse_next_inner fuel st src =
        some (Except.ok (AmarkToken.ItemName name), st', src') →
      name ≠ [] := by
  induction fuel with
  | zero =>
    intro st src name st' src' _ h
    simp [parse_next_inner] at h
  | succ n ih =>
    intro st src name st' src' hctx h
    rcases hg : st.buf.storage.get? st.buf.processed with _ | b
    · simp only [parse_next_inner, Buf.next_byte, hg] at h
      split at h
      · split at h <;> simp at h
      · refine ih _ _ name st' src' ?_ h
        exact hctx
    · simp only [parse_next_inner, Buf.next_byte, hg] at h
      rcases hctx with hc | hc <;> rw [hc] at h <;> dsimp only at h
      · -- TopLevel dispatch
        split at h
        · simp at h
        · split at h
          · simp at h
          · split at h
            · rename_i hident
              split at h
              · rename_i name0 buf2 hread
                simp only [Option.some.injEq, Prod.mk.injEq,
                  Except.ok.injEq, AmarkToken.ItemName.injEq] at h
                rcases h with ⟨h1, -⟩
                subst h1
                refine read_item_name_ok_nonempty _ b ?_ hident name0 buf2 hread
                simpa using hg
              · simp at h
            · refine ih _ _ name st' src' ?_ h
              exact Or.inl hc
      · -- Container dispatch
        split at h
        · simp at h
        · split at h
          · simp at h
          · split at h
            · rename_i hident
              split at h
              · rename_i name0 buf2 hread
                simp only [Option.some.injEq, Prod.mk.injEq,
                  Except.ok.injEq, AmarkToken.ItemName.injEq] at h
                rcases h with ⟨h1, -⟩
                subst h1
                refine read_item_name_ok_nonempty _ b ?_ hident name0 buf2 hread
                simpa using hg
              · simp at h
            · refine ih _ _ name st' src' ?_ h
              exact Or.inr hc

/-- C10: in `Block` context, `@` (64) immediately followed by a
non-identifier byte `c` does not fail: the engine emits `ItemName` with an
empty name and pushes the `ItemName` context (with `c` reprocessed later
when it is structural/`;`, consumed when it is whitespace); by contrast, in
`TopLevel` or `Container` context every emitted `ItemName` has at least one
byte. -/
theorem c10_sigil_empty_item_name :
    (∀ (fuel : Nat) (st : ReaderState) (src : List Nat) (c : Nat),
      ContextStack.last st.context_stack = Context.Block →
      st.buf.storage.get? st.buf.processed = some 64 →
      st.buf.storage.get? (st.buf.processed + 1) = some c →
      is_ascii_ident_char c = false →
      parse_next_inner (fuel + 1) st src =
        some (Except.ok (AmarkToken.ItemName []),
          ⟨⟨st.buf.storage, st.buf.processed + 1 +
              (if is_ascii_context_char c || c == 59 then 0 else 1)⟩,
            ContextStack.push st.context_stack Context.ItemName,
            st.cur_line⟩, src)) ∧
    (∀ fuel st src name st' src',
      (ContextStack.last st.context_stack = Context.TopLevel ∨
        ContextStack.last st.context_stack = Context.Container) →
      parse_next_inner fuel st src =
        some (Except.ok (AmarkToken.ItemName name), st', src') →
      name ≠ []) := by
  constructor
  · intro fuel st src c hlast hb hc hcn
    have hlt : st.buf.processed + 1 < st.buf.storage.length :=
      (List.get?_eq_some.mp hc).1
    have hcons : st.buf.storage.drop (st.buf.processed + 1) =
        c :: st.buf.storage.drop (st.buf.processed + 1 + 1) := by
      rw [List.drop_eq_get_cons hlt]
      exact congrArg (· :: _) (List.get?_eq_some.mp hc).2
    have hrun : (st.buf.storage.drop (st.buf.processed + 1)).takeWhile
        is_ascii_ident_char = [] := by
      rw [hcons, List.takeWhile_cons, hcn]
      simp
    have hget : (st.buf.storage.drop (st.buf.processed + 1)).get?
        ((st.buf.storage.drop (st.buf.processed + 1)).takeWhile
          is_ascii_ident_char).length = some c := by
      rw [hrun, hcons]
      simp
    have hspec := (read_item_name_spec ⟨st.buf.storage, st.buf.processed + 1⟩
      (st.buf.storage.drop (st.buf.processed + 1))
      ((st.buf.storage.drop (st.buf.processed + 1)).takeWhile
        is_ascii_ident_char)
      (Nat.le_of_lt hlt) rfl rfl).1 c hget
    rw [hrun] at hspec
    simp only [parse_next_inner, Buf.next_byte, hb, hlast]
    simp [hspec, ContextStack.push]
  · exact toplevel_item_name_nonempty

/-- Witness for C10: in a `Block` on buffer `"@{"` the sigil emits
`ItemName []` and pushes `ItemName`; the first token of top-level source
`"a{"` is `ItemName [97]`, a nonempty name. -/
theorem c10_sigil_empty_item_name_witness :
    parse_next_inner 7 ⟨⟨[64, 123], 0⟩, [Context.Block], 1⟩ [] =
      some (Except.ok (AmarkToken.ItemName []),
        ⟨⟨[64, 123], 1⟩, [Context.ItemName, Context.Block], 1⟩, []) ∧
    [97] ≠ ([] : List Nat) := by
  constructor
  · have h := c10_sigil_empty_item_name.1 6 ⟨⟨[64, 123], 0⟩, [Context.Block], 1⟩
      [] 123 (by decide) (by decide) (by decide) (by decide)
    simpa [ContextStack.push] using h
  · exact c10_sigil_empty_item_name.2 50 ReaderState.new [97, 123] [97]
      ⟨⟨[97, 123], 1⟩, [Context.ItemName], 1⟩ [] (Or.inl (by decide))
      (by decide)

/-- `Buf.search_forward` keeps the cursor within the storage bounds. -/
theorem search_forward_processed_le (fuel : Nat) :
    ∀ (buf : Buf) (cur : Nat) (src : List Nat) (pattern : Nat → Bool)
      (r : Bool) (buf' : Buf) (cur' : Nat) (src' : List Nat),
      buf.processed ≤ buf.storage.length →
      Buf.search_forward fuel buf cur src pattern =
        some (r, buf', cur', src') →
      buf'.processed ≤ buf'.storage.length := by
  induction fuel with
  | zero =>
    intro buf cur src pattern r buf' cur' src' _ h
    simp [Buf.search_forward] at h
  | succ n ih =>
    intro buf cur src pattern r buf' cur' src' hb h
    simp only [Buf.search_forward] at h
    split at h
    · simp only [Option.some.injEq, Prod.mk.injEq] at h
      rcases h with ⟨-, h2, -, -⟩
      exact h2 ▸ hb
    · rcases hg : buf.storage.get? buf.processed with _ | b
      · simp only [Buf.next_byte, hg] at h
        exact ih _ _ _ _ r buf' cur' src' (Nat.zero_le _) h
      · simp only [Buf.next_byte, hg] at h
        have hlt : buf.processed < buf.storage.length :=
          (List.get?_eq_some.mp hg).1
        split at h
        · simp only [Option.some.injEq, Prod.mk.injEq] at h
          rcases h with ⟨-, h2, -, -⟩
          subst h2
          exact hlt
        · refine ih _ _ _ _ r buf' cur' src' ?_ h
          exact hlt

/-- `Buf.take_until_rewind` keeps the cursor within the storage bounds for
every searcher that reports in-range positions. -/
theorem take_until_rewind_processed_le (buf : Buf)
    (searcher : List Nat → Option Nat) (rew : Nat → Nat)
    (hs : ∀ l i, searcher l = some i → i < l.length)
    (hb : buf.processed ≤ buf.storage.length) :
    ((buf.take_until_rewind searcher rew).2).processed ≤
      ((buf.take_until_rewind searcher rew).2).storage.length := by
  unfold Buf.take_until_rewind take_until_inner
  rcases hq : searcher (buf.storage.drop buf.processed) with _ | pos
  · simp [hb, hq, List.length_drop]
  · have hpos := hs _ _ hq
    rw [List.length_drop] at hpos
    rcases hg : buf.storage.get? (buf.processed + pos) with _ | byte <;>
      · simp only [List.get?_eq_getElem?] at hg
        simp [hb, hq, hg]
        omega

/-- C9: across the Line Cursor Buffer operations the engine invokes
(`fill_with_line`, `next_byte`, `rewind`, `search_forward`,
`take_until_rewind` with an in-range searcher), the processed cursor always
stays within `0 ≤ processed ≤ storage.length`. -/
theorem c9_cursor_bounds :
    (∀ (buf : Buf) (cur : Nat) (src : List Nat),
      ((buf.fill_with_line cur src).1).processed ≤
        ((buf.fill_with_line cur src).1).storage.length) ∧
    (∀ buf : Buf, buf.processed ≤ buf.storage.length →
      (buf.next_byte).2.processed ≤ (buf.next_byte).2.storage.length) ∧
    (∀ (buf : Buf) (n : Nat), buf.processed ≤ buf.storage.length →
      (buf.rewind n).processed ≤ (buf.rewind n).storage.length) ∧
    (∀ (fuel : Nat) (buf : Buf) (cur : Nat) (src : List Nat)
      (pattern : Nat → Bool) (r : Bool) (buf' : Buf) (cur' : Nat)
      (src' : List Nat),
      buf.processed ≤ buf.storage.length →
      Buf.search_forward fuel buf cur src pattern =
        some (r, buf', cur', src') →
      buf'.processed ≤ buf'.storage.length) ∧
    (∀ (buf : Buf) (searcher : List Nat → Option Nat) (rew : Nat → Nat),
      (∀ l i, searcher l = some i → i < l.length) →
      buf.processed ≤ buf.storage.length →
      ((buf.take_until_rewind searcher rew).2).processed ≤
        ((buf.take_until_rewind searcher rew).2).storage.length) := by
  refine ⟨?_, ?_, ?_, ?_, ?_⟩
  · intro buf cur src
    simp [Buf.fill_with_line]
  · intro buf hb
    rcases hg : buf.storage.get? buf.processed with _ | b
    · simp only [Buf.next_byte, hg]
      exact hb
    · have hlt : buf.processed < buf.storage.length :=
        (List.get?_eq_some.mp hg).1
      simp only [Buf.next_byte, hg]
      exact hlt
  · intro buf n hb
    simp only [Buf.rewind]
    exact Nat.le_trans (Nat.sub_le _ _) hb
  · exact search_forward_processed_le
  · exact fun buf searcher rew hs hb =>
      take_until_rewind_processed_le buf searcher rew hs hb

/-- Witness for C9: concrete instances of every conjunct — a refill, a
`next_byte`, a `rewind`, a whitespace `search_forward` over `" a"` and a
never-matching `take_until_rewind` — all keep the cursor in bounds. -/
theorem c9_cursor_bounds_witness :
    ((Buf.fill_with_line ⟨[5], 1⟩ 0 [9, 10]).1).processed ≤
      ((Buf.fill_with_line ⟨[5], 1⟩ 0 [9, 10]).1).storage.length ∧
    ((⟨[7], 0⟩ : Buf).next_byte).2.processed ≤
      ((⟨[7], 0⟩ : Buf).next_byte).2.storage.length ∧
    ((⟨[7, 8], 1⟩ : Buf).rewind 5).processed ≤
      ((⟨[7, 8], 1⟩ : Buf).rewind 5).storage.length ∧
    (2 : Nat) ≤ ([32, 97] : List Nat).length ∧
    (((⟨[97, 98, 99], 1⟩ : Buf).take_until_rewind (fun _ => none)
        (fun _ => 0)).2).processed ≤
      (((⟨[97, 98, 99], 1⟩ : Buf).take_until_rewind (fun _ => none)
        (fun _ => 0)).2).storage.length := by
  refine ⟨c9_cursor_bounds.1 ⟨[5], 1⟩ 0 [9, 10],
    c9_cursor_bounds.2.1 ⟨[7], 0⟩ (by decide),
    c9_cursor_bounds.2.2.1 ⟨[7, 8], 1⟩ 5 (by decide), ?_, ?_⟩
  · have h := c9_cursor_bounds.2.2.2.1 5 ⟨[32, 97], 0⟩ 0 []
      (fun x => !is_ascii_whitespace x) true ⟨[32, 97], 2⟩ 0 []
      (by decide) (by decide)
    simpa using h
  · exact c9_cursor_bounds.2.2.2.2 ⟨[97, 98, 99], 1⟩ (fun _ => none)
      (fun _ => 0) (fun _ _ h => nomatch h) (by decide)

/-- Popping any context preserves stack well-formedness. -/
theorem wf_tail {c : Context} {s : List Context}
    (h : wf_stack (c :: s) = true) : wf_stack s = true := by
  cases c <;> simp_all [wf_stack]

/-- Below a well-formed `Params` entry sits an `ItemName` or an
`EscapeSequence` entry. -/
theorem wf_params_below {s : List Context}
    (h : wf_stack (Context.Params :: s) = true) :
    (s.head? = some Context.ItemName ∨
      s.head? = some Context.EscapeSequence) ∧ wf_stack s = true := by
  simp only [wf_stack, Bool.and_eq_true] at h
  refine ⟨?_, h.2⟩
  have h1 := h.1
  rcases hh : s.head? with _ | c
  · rw [hh] at h1
    simp at h1
  · rw [hh] at h1
    cases c <;> simp_all

/-- A stack whose `last` is a non-`TopLevel` context starts with it. -/
theorem last_eq_cons {s : List Context} {c : Context}
    (h : ContextStack.last s = c) (hc : c ≠ Context.TopLevel) :
    s = c :: s.tail := by
  cases s with
  | nil =>
    simp [ContextStack.last] at h
    exact absurd h.symm hc
  | cons a t =>
    simp [ContextStack.last] at h
    rw [h]
    rfl

/-- A well-formed stack showing `TopLevel` is empty. -/
theorem wf_last_toplevel {s : List Context} (hw : wf_stack s = true)
    (h : ContextStack.last s = Context.TopLevel) : s = [] := by
  cases s with
  | nil => rfl
  | cons a t =>
    simp [ContextStack.last] at h
    rw [h] at hw
    simp [wf_stack] at hw

/-- An empty line out of `read_until_newline` means the source was empty. -/
theorem read_until_newline_fst_nil : ∀ src : List Nat,
    (read_until_newline src).1 = [] → src = [] := by
  intro src h
  cases src with
  | nil => rfl
  | cons b r =>
    rcases hrec : read_until_newline r with ⟨line, rest⟩
    by_cases hb : (b == 10) = true <;>
      simp [read_until_newline, hb, hrec] at h

/-- Master per-call lemma: a successful `parse_next_inner` step preserves
stack well-formedness and accounts each `*Start`/`*End` token by exactly one
push/pop of the matching context; an `End` token moreover certifies empty
storage, a `TopLevel` context and exhausted source. -/
theorem parse_step_ok (fuel : Nat) :
    ∀ st src tok st' src',
      parse_next_inner fuel st src = some (Except.ok tok, st', src') →
      ((wf_stack st.context_stack = true →
        wf_stack st'.context_stack = true ∧
        ctx_count Context.Block st.context_stack +
            (if tok = AmarkToken.BlockStart then 1 else 0) =
          ctx_count Context.Block st'.context_stack +
            (if tok = AmarkToken.BlockEnd then 1 else 0) ∧
        ctx_count Context.Container st.context_stack +
            (if tok = AmarkToken.ContainerStart then 1 else 0) =
          ctx_count Context.Container st'.context_stack +
            (if tok = AmarkToken.ContainerEnd then 1 else 0) ∧
        ctx_count Context.Params st.context_stack +
            (if tok = AmarkToken.ParamsStart then 1 else 0) =
          ctx_count Context.Params st'.context_stack +
            (if tok = AmarkToken.ParamsEnd then 1 else 0)) ∧
      (tok = AmarkToken.End →
        st'.buf.storage = [] ∧
        ContextStack.last st'.context_stack = Context.TopLevel ∧
        src' = [])) := by
  induction fuel with
  | zero =>
    intro st src tok st' src' h
    simp [parse_next_inner] at h
  | succ n ih =>
    intro st src tok st' src' h
    rcases hg : st.buf.storage.get? st.buf.processed with _ | b
    · -- buffer exhausted: refill path
      simp only [parse_next_inner, Buf.next_byte, hg] at h
      split at h
      · rename_i hemp
        split at h
        · rename_i htl
          simp only [Option.some.injEq, Prod.mk.injEq, Except.ok.injEq] at h
          obtain ⟨htok, hst, hsrc⟩ := h
          subst htok
          subst hst
          subst hsrc
          rcases hrn : read_until_newline src with ⟨line, rest⟩
          have hline : line = [] := by
            simp [Buf.fill_with_line, hrn, Buf.storage_empty,
              List.isEmpty_iff] at hemp
            exact hemp
          subst hline
          have hsrc0 : src = [] := by
            refine read_until_newline_fst_nil src ?_
            rw [hrn]
          subst hsrc0
          have hrest : rest = [] := by
            have hz : read_until_newline [] = ([], []) := rfl
            rw [hz] at hrn
            exact (Prod.mk.injEq _ _ _ _ ▸ hrn).2.symm
          subst hrest
          constructor
          · intro hw
            refine ⟨hw, ?_, ?_, ?_⟩ <;> simp [Buf.fill_with_line]
          · intro _
            refine ⟨?_, ?_, ?_⟩ <;> simp [Buf.fill_with_line, hrn, htl]
        · simp at h
      · have hres := ih _ _ tok st' src' h
        exact hres
    · simp only [parse_next_inner, Buf.next_byte, hg] at h
      rcases hl : ContextStack.last st.context_stack with _ | _ | _ | _ | _ | _ <;>
        rw [hl] at h <;> dsimp only at h
      · -- Block dispatch
        obtain ⟨t, ht⟩ : ∃ t, st.context_stack = Context.Block :: t :=
          ⟨_, last_eq_cons hl (by decide)⟩
        split at h
        · -- newline: EmptyLine
          simp only [Option.some.injEq, Prod.mk.injEq, Except.ok.injEq] at h
          obtain ⟨htok, hst, hsrc⟩ := h
          subst htok
          subst hst
          subst hsrc
          exact ⟨fun hw => ⟨hw, by simp, by simp, by simp⟩,
            fun hE => by simp at hE⟩
        · split at h
          · -- backslash: escape sequence
            rcases hg2 : st.buf.storage.get? (st.buf.processed + 1) with _ | X
            · simp only [parse_escape_sequence, Buf.next_byte, hg2] at h
              simp at h
            · simp only [parse_escape_sequence, Buf.next_byte, hg2] at h
              simp only [Option.some.injEq, Prod.mk.injEq,
                Except.ok.injEq] at h
              obtain ⟨htok, hst, hsrc⟩ := h
              subst htok
              subst hst
              subst hsrc
              refine ⟨fun hw => ?_, fun hE => by simp at hE⟩
              rw [ht] at hw ⊢
              refine ⟨?_, ?_, ?_, ?_⟩ <;>
                simp [ContextStack.push, ctx_count, wf_stack, hw, wf_tail hw]
          · split at h
            · -- sigil: item name
              split at h
              · simp only [Option.some.injEq, Prod.mk.injEq,
                  Except.ok.injEq] at h
                obtain ⟨htok, hst, hsrc⟩ := h
                subst htok
                subst hst
                subst hsrc
                refine ⟨fun hw => ?_, fun hE => by simp at hE⟩
                refine ⟨?_, ?_, ?_, ?_⟩ <;>
                  simp [ContextStack.push, ctx_count, wf_stack, hw]
              · simp at h
            · split at h
              · -- closing brace: BlockEnd
                simp only [Option.some.injEq, Prod.mk.injEq,
                  Except.ok.injEq] at h
                obtain ⟨htok, hst, hsrc⟩ := h
                subst htok
                subst hst
                subst hsrc
                refine ⟨fun hw => ?_, fun hE => by simp at hE⟩
                rw [ht] at hw ⊢
                refine ⟨wf_tail hw, ?_, ?_, ?_⟩ <;>
                  simp [ContextStack.pop, ctx_count] <;> try omega
              · split at h
                · -- whitespace: continue
                  have hres := ih _ _ tok st' src' h
                  exact hres
                · -- text line
                  split at h
                  · simp only [Option.some.injEq, Prod.mk.injEq,
                      Except.ok.injEq] at h
                    obtain ⟨htok, hst, hsrc⟩ := h
                    subst htok
                    subst hst
                    subst hsrc
                    exact ⟨fun hw => ⟨hw, by simp, by simp, by simp⟩,
                      fun hE => by simp at hE⟩
                  · simp at h
      · -- Params dispatch
        obtain ⟨t, ht⟩ : ∃ t, st.context_stack = Context.Params :: t :=
          ⟨_, last_eq_cons hl (by decide)⟩
        split at h
        · -- backslash: escape sequence
          rcases hg2 : st.buf.storage.get? (st.buf.processed + 1) with _ | X
          · simp only [parse_escape_sequence, Buf.next_byte, hg2] at h
            simp at h
          · simp only [parse_escape_sequence, Buf.next_byte, hg2] at h
            simp only [Option.some.injEq, Prod.mk.injEq, Except.ok.injEq] at h
            obtain ⟨htok, hst, hsrc⟩ := h
            subst htok
            subst hst
            subst hsrc
            refine ⟨fun hw => ?_, fun hE => by simp at hE⟩
            refine ⟨?_, ?_, ?_, ?_⟩ <;>
              simp [ContextStack.push, ctx_count, wf_stack, hw]
        · split at h
          · -- ')': ParamsEnd with the conditional second pop
            simp only [Option.some.injEq, Prod.mk.injEq, Except.ok.injEq] at h
            obtain ⟨htok, hst, hsrc⟩ := h
            subst htok
            subst hst
            subst hsrc
            refine ⟨fun hw => ?_, fun hE => by simp at hE⟩
            rw [ht] at hw ⊢
            have hpb := wf_params_below hw
            rcases hpb.1 with hhead | hhead
            · obtain ⟨u, hu⟩ : ∃ u, t = Context.ItemName :: u := by
                cases t with
                | nil => simp at hhead
                | cons a u =>
                  simp at hhead
                  exact ⟨u, by rw [hhead]⟩
              subst hu
              refine ⟨?_, ?_, ?_, ?_⟩ <;>
                simp [ContextStack.pop, ContextStack.last, ctx_count,
                  wf_stack, hpb.2, wf_tail hpb.2] <;> try omega
            · obtain ⟨u, hu⟩ : ∃ u, t = Context.EscapeSequence :: u := by
                cases t with
                | nil => simp at hhead
                | cons a u =>
                  simp at hhead
                  exact ⟨u, by rw [hhead]⟩
              subst hu
              have hwu : wf_stack u = true := wf_tail hpb.2
              refine ⟨?_, ?_, ?_, ?_⟩ <;>
                simp [ContextStack.pop, ContextStack.last, ctx_count,
                  wf_stack, hwu] <;> try omega
          · -- text line
            split at h
            · simp only [Option.some.injEq, Prod.mk.injEq,
                Except.ok.injEq] at h
              obtain ⟨htok, hst, hsrc⟩ := h
              subst htok
              subst hst
              subst hsrc
              exact ⟨fun hw => ⟨hw, by simp, by simp, by simp⟩,
                fun hE => by simp at hE⟩
            · simp at h
      · -- Container dispatch
        obtain ⟨t, ht⟩ : ∃ t, st.context_stack = Context.Container :: t :=
          ⟨_, last_eq_cons hl (by decide)⟩
        split at h
        · simp only [Option.some.injEq, Prod.mk.injEq, Except.ok.injEq] at h
          obtain ⟨htok, hst, hsrc⟩ := h
          subst htok
          subst hst
          subst hsrc
          constructor
          · intro hw
            rw [ht] at hw ⊢
            refine ⟨wf_tail hw, ?_, ?_, ?_⟩ <;>
              simp [ContextStack.pop, ctx_count] <;> try omega
          · intro hE
            simp at hE
        · split at h
          · simp at h
          · split at h
            · split at h
              · simp only [Option.some.injEq, Prod.mk.injEq,
                  Except.ok.injEq] at h
                obtain ⟨htok, hst, hsrc⟩ := h
                subst htok
                subst hst
                subst hsrc
                constructor
                · intro hw
                  refine ⟨?_, ?_, ?_, ?_⟩ <;>
                    simp [ContextStack.push, ctx_count, wf_stack, hw]
                · intro hE
                  simp at hE
              · simp at h
            · have hres := ih _ _ tok st' src' h
              exact hres
      · -- TopLevel dispatch
        split at h
        · simp at h
        · split at h
          · simp at h
          · split at h
            · split at h
              · simp only [Option.some.injEq, Prod.mk.injEq,
                  Except.ok.injEq] at h
                obtain ⟨htok, hst, hsrc⟩ := h
                subst htok
                subst hst
                subst hsrc
                constructor
                · intro hw
                  refine ⟨?_, ?_, ?_, ?_⟩ <;>
                    simp [ContextStack.push, ctx_count, wf_stack, hw]
                · intro hE
                  simp at hE
              · simp at h
            · have hres := ih _ _ tok st' src' h
              exact hres
      · -- ItemName dispatch
        obtain ⟨t, ht⟩ : ∃ t, st.context_stack = Context.ItemName :: t :=
          ⟨_, last_eq_cons hl (by decide)⟩
        split at h
        · rename_i hcond
          split at h
          · exact absurd h (by simp)
          · simp only [Option.some.injEq, Prod.mk.injEq, Except.ok.injEq] at h
            obtain ⟨htok, hst, hsrc⟩ := h
            subst htok
            subst hst
            subst hsrc
            simp only [Bool.or_eq_true, beq_iff_eq] at hcond
            rcases hcond with (hb | hb) | hb
            · subst hb
              constructor
              · intro hw
                rw [ht] at hw ⊢
                refine ⟨?_, ?_, ?_, ?_⟩ <;>
                  simp_all [parse_ascii_context_char, ContextStack.push,
                    ContextStack.pop, ctx_count, wf_stack] <;> try omega
              · intro hE
                simp [parse_ascii_context_char] at hE
            · subst hb
              constructor
              · intro hw
                rw [ht] at hw ⊢
                refine ⟨?_, ?_, ?_, ?_⟩ <;>
                  simp_all [parse_ascii_context_char, ContextStack.push,
                    ContextStack.pop, ctx_count, wf_stack] <;> try omega
              · intro hE
                simp [parse_ascii_context_char] at hE
            · subst hb
              constructor
              · intro hw
                rw [ht] at hw ⊢
                refine ⟨?_, ?_, ?_, ?_⟩ <;>
                  simp_all [parse_ascii_context_char, ContextStack.push,
                    ContextStack.pop, ctx_count, wf_stack] <;> try omega
              · intro hE
                simp [parse_ascii_context_char] at hE
        · split at h
          · simp only [Option.some.injEq, Prod.mk.injEq, Except.ok.injEq] at h
            obtain ⟨htok, hst, hsrc⟩ := h
            subst htok
            subst hst
            subst hsrc
            constructor
            · intro hw
              rw [ht] at hw ⊢
              refine ⟨wf_tail hw, ?_, ?_, ?_⟩ <;>
                simp [ContextStack.pop, ctx_count]
            · intro hE
              simp at hE
          · split at h
            · have hres := ih _ _ tok st' src' h
              exact hres
            · simp at h
      · -- EscapeSequence dispatch
        obtain ⟨t, ht⟩ : ∃ t, st.context_stack = Context.EscapeSequence :: t :=
          ⟨_, last_eq_cons hl (by decide)⟩
        split at h
        · -- '(' opens a parameter list
          split at h
          · exact absurd h (by simp)
          · simp only [Option.some.injEq, Prod.mk.injEq, Except.ok.injEq] at h
            obtain ⟨htok, hst, hsrc⟩ := h
            subst htok
            subst hst
            subst hsrc
            refine ⟨fun hw => ?_, fun hE => by simp at hE⟩
            rw [ht] at hw ⊢
            refine ⟨?_, ?_, ?_, ?_⟩ <;>
              simp [ContextStack.push, ctx_count, wf_stack, hw, wf_tail hw] <;>
                try omega
        · -- any other byte: rewind, pop, continue
          have hres := ih _ _ tok st' src' h
          have hpop : ContextStack.pop st.context_stack = t := by
            rw [ht]
            rfl
          constructor
          · intro hw
            rw [ht] at hw
            have hres1 := hres.1 (by rw [hpop]; exact wf_tail hw)
            rw [hpop] at hres1
            rw [ht]
            refine ⟨hres1.1, ?_, ?_, ?_⟩
            · simpa [ctx_count] using hres1.2.1
            · simpa [ctx_count] using hres1.2.2.1
            · simpa [ctx_count] using hres1.2.2.2
          · exact hres.2

/-- Streams that terminate with `End` from a well-formed stack balance every
`*Start` against its `*End` (offset by the contexts already open), contain
exactly one `End`, and end with it. -/
theorem run_stream_spec (fuel : Nat) :
    ∀ st src ts,
      wf_stack st.context_stack = true →
      run_stream fuel st src = some (ts, none) →
      tok_count AmarkToken.BlockStart ts +
          ctx_count Context.Block st.context_stack =
        tok_count AmarkToken.BlockEnd ts ∧
      tok_count AmarkToken.ContainerStart ts +
          ctx_count Context.Container st.context_stack =
        tok_count AmarkToken.ContainerEnd ts ∧
      tok_count AmarkToken.ParamsStart ts +
          ctx_count Context.Params st.context_stack =
        tok_count AmarkToken.ParamsEnd ts ∧
      tok_count AmarkToken.End ts = 1 ∧
      ts.getLast? = some AmarkToken.End := by
  induction fuel with
  | zero =>
    intro st src ts hw h
    simp [run_stream] at h
  | succ n ih =>
    intro st src ts hw h
    simp only [run_stream] at h
    rcases hp : parse_next_inner (n + 1) st src with _ | ⟨res, st1, src1⟩
    · rw [hp] at h
      simp at h
    · rw [hp] at h
      rcases res with e | tok
      · simp at h
      · dsimp only at h
        by_cases hEnd : tok = AmarkToken.End
        · subst hEnd
          rw [if_pos rfl] at h
          simp only [Option.some.injEq, Prod.mk.injEq] at h
          obtain ⟨hts, -⟩ := h
          subst hts
          have hstep := parse_step_ok (n + 1) st src _ st1 src1 hp
          have h1 := hstep.1 hw
          have h2 := hstep.2 rfl
          have hempty : st1.context_stack = [] := wf_last_toplevel h1.1 h2.2.1
          have hb := h1.2.1
          have hc := h1.2.2.1
          have hq := h1.2.2.2
          rw [hempty] at hb hc hq
          simp only [ctx_count] at hb hc hq
          simp at hb hc hq
          refine ⟨?_, ?_, ?_, by simp [tok_count], by simp⟩ <;>
            simp [tok_count] <;> omega
        · rw [if_neg hEnd] at h
          rcases hr : run_stream n st1 src1 with _ | ⟨ts1, out1⟩
          · rw [hr] at h
            simp at h
          · rw [hr] at h
            simp only [Option.some.injEq, Prod.mk.injEq] at h
            obtain ⟨hts, hout⟩ := h
            subst hts
            subst hout
            have hstep := parse_step_ok (n + 1) st src tok st1 src1 hp
            have h1 := hstep.1 hw
            have hrec := ih st1 src1 ts1 h1.1 hr
            have hb := h1.2.1
            have hc := h1.2.2.1
            have hq := h1.2.2.2
            refine ⟨?_, ?_, ?_, ?_, ?_⟩
            · have := hrec.1
              simp only [tok_count]
              omega
            · have := hrec.2.1
              simp only [tok_count]
              omega
            · have := hrec.2.2.1
              simp only [tok_count]
              omega
            · have := hrec.2.2.2.1
              simp only [tok_count, if_neg hEnd]
              omega
            · have hlast := hrec.2.2.2.2
              have hcnt := hrec.2.2.2.1
              cases ts1 with
              | nil => simp [tok_count] at hcnt
              | cons b l =>
                rw [List.getLast?_cons_cons]
                exact hlast

/-- C2 (amended): for every input whose token stream terminates with `End`
(no error), the emitted `BlockStart` tokens equal the `BlockEnd` tokens in
number, and likewise `ContainerStart`/`ContainerEnd` and
`ParamsStart`/`ParamsEnd`. -/
theorem c2_balanced_when_end (fuel : Nat) (src : List Nat)
    (ts : List AmarkToken)
    (h : run_stream fuel ReaderState.new src = some (ts, none)) :
    tok_count AmarkToken.BlockStart ts = tok_count AmarkToken.BlockEnd ts ∧
    tok_count AmarkToken.ContainerStart ts =
      tok_count AmarkToken.ContainerEnd ts ∧
    tok_count AmarkToken.ParamsStart ts = tok_count AmarkToken.ParamsEnd ts := by
  have hs := run_stream_spec fuel ReaderState.new src ts (by rfl) h
  simp only [ReaderState.new, ctx_count] at hs
  exact ⟨by omega, by omega, by omega⟩

/-- Witness for C2: the empty source yields the stream `[End]`, whose
start/end counts agree (0 = 0 for all three pairs). -/
theorem c2_balanced_when_end_witness :
    tok_count AmarkToken.BlockStart [AmarkToken.End] =
      tok_count AmarkToken.BlockEnd [AmarkToken.End] ∧
    tok_count AmarkToken.ContainerStart [AmarkToken.End] =
      tok_count AmarkToken.ContainerEnd [AmarkToken.End] ∧
    tok_count AmarkToken.ParamsStart [AmarkToken.End] =
      tok_count AmarkToken.ParamsEnd [AmarkToken.End] :=
  c2_balanced_when_end 1 [] [AmarkToken.End] (by decide)

/-- C8: every successfully terminating stream contains exactly one `End`
and ends with it; moreover, once a call has returned `End`, every further
call returns `End` again (with empty storage and exhausted source), so no
other token can ever follow `End`. -/
theorem c8_end_terminal :
    (∀ (fuel : Nat) (src : List Nat) (ts : List AmarkToken),
      run_stream fuel ReaderState.new src = some (ts, none) →
      tok_count AmarkToken.End ts = 1 ∧ ts.getLast? = some AmarkToken.End) ∧
    (∀ (fuel : Nat) (st : ReaderState) (src : List Nat)
      (st' : ReaderState) (src' : List Nat),
      parse_next_inner fuel st src =
        some (Except.ok AmarkToken.End, st', src') →
      ∀ fuel' : Nat,
        parse_next_inner (fuel' + 1) st' src' =
          some (Except.ok AmarkToken.End,
            ⟨⟨[], 0⟩, st'.context_stack, st'.cur_line + 1⟩, [])) := by
  constructor
  · intro fuel src ts h
    have hs := run_stream_spec fuel ReaderState.new src ts (by rfl) h
    exact ⟨hs.2.2.2.1, hs.2.2.2.2⟩
  · intro fuel st src st' src' h fuel'
    obtain ⟨hsto, hlast, hsrc⟩ := (parse_step_ok fuel st src _ st' src' h).2 rfl
    subst hsrc
    have hres := parse_next_refill_empty fuel' st' (by rw [hsto]; rfl)
    rw [if_pos hlast] at hres
    exact hres

/-- Witness for C8: on the empty source the stream is `[End]` with one
final `End`; the call returning `End` from the fresh reader is followed by
another `End`-returning call. -/
theorem c8_end_terminal_witness :
    (tok_count AmarkToken.End [AmarkToken.End] = 1 ∧
      ([AmarkToken.End] : List AmarkToken).getLast? = some AmarkToken.End) ∧
    parse_next_inner 1 ⟨⟨[], 0⟩, [], 1⟩ [] =
      some (Except.ok AmarkToken.End, ⟨⟨[], 0⟩, [], 2⟩, []) := by
  constructor
  · exact c8_end_terminal.1 1 [] [AmarkToken.End] (by decide)
  · have h := c8_end_terminal.2 1 ReaderState.new [] ⟨⟨[], 0⟩, [], 1⟩ []
      (by decide) 0
    simpa using h

end Amark
